import Mathlib

/-!
# Verification of the RM_Tools Monte Carlo / Value-at-Risk core

Shallow embedding of `risk_management_tools/financial_risk_models/value_at_risk.py`
and `risk_management_tools/financial_risk_models/monte_carlo_sim.py`.

Floating-point numbers are idealised as rationals (every IEEE double is a
rational, and the formulas are closed-form rational/field expressions except
for the library calls `np.sqrt`, `np.exp`, `scipy.stats.norm.ppf`,
`np.percentile` and `np.random.normal`, which are external library functions
and are modelled as explicit function parameters).  Outcomes where numpy
raises (IndexError on out-of-bounds indexing) or produces NaN (mean of an
empty slice) are modelled as `none`.
-/

/- Batteries marks the arithmetic on `Rat` irreducible, which blocks kernel
evaluation of concrete rational computations; restore the default
reducibility so that concrete instances can be settled by `decide`. -/
set_option allowUnsafeReducibility true in
attribute [semireducible] Rat.mul Rat.div Rat.inv Rat.add Rat.sub Rat.neg

namespace RMTools

/-- The VaR index computed by both `calculate_historical_var` and
`calculate_conditional_var`:
`index = int(np.ceil(len(sorted_returns) * (1 - confidence_level)) - 1)`
followed by `if index < 0: index = 0`.  `Int.toNat` performs exactly the
clamp-below-at-zero. -/
def varIndex (n : ℕ) (confidence_level : ℚ) : ℕ :=
  (⌈(n : ℚ) * (1 - confidence_level)⌉ - 1).toNat

/-- Embedding of `calculate_historical_var(returns, confidence_level,
investment_value)`: sort the returns ascending (`np.sort`), look up the
return at the clamped ceiling index, and return
`investment_value * -var_return`.  `none` models the IndexError numpy raises
when the index is out of bounds (in particular on an empty sample). -/
def calculate_historical_var (returns : List ℚ)
    (confidence_level investment_value : ℚ) : Option ℚ :=
  let sorted_returns := returns.insertionSort (· ≤ ·)
  let index := varIndex returns.length confidence_level
  (sorted_returns[index]?).map (fun var_return => investment_value * -var_return)

/-- Embedding of `calculate_conditional_var(returns, confidence_level,
investment_value)`: same sort and index as the historical variant, then
`cvar_returns = sorted_returns[:index+1]`, `cvar_return = np.mean(cvar_returns)`
and `investment_value * -cvar_return`.  `none` models the NaN produced by
`np.mean` of an empty slice. -/
def calculate_conditional_var (returns : List ℚ)
    (confidence_level investment_value : ℚ) : Option ℚ :=
  let sorted_returns := returns.insertionSort (· ≤ ·)
  let index := varIndex returns.length confidence_level
  let cvar_returns := sorted_returns.take (index + 1)
  if cvar_returns.isEmpty then none
  else some (investment_value * -(cvar_returns.sum / (cvar_returns.length : ℚ)))

/-- Embedding of `calculate_parametric_var(mean_return, std_dev,
confidence_level, investment_value, time_horizon)`.  The external library
functions `scipy.stats.norm.ppf` and `np.sqrt` are passed in as `ppf` and
`sqrtf`. -/
def calculate_parametric_var (ppf sqrtf : ℚ → ℚ)
    (mean_return std_dev confidence_level investment_value time_horizon : ℚ) : ℚ :=
  let z_score := ppf (1 - confidence_level)
  let var_return := -(mean_return * time_horizon + z_score * std_dev * sqrtf time_horizon)
  investment_value * var_return

/-- The 20-element example return sample used throughout the specification. -/
def specSample : List ℚ :=
  [1/100, -2/100, 5/1000, 8/1000, -1/100, 2/100, -3/100, 15/1000, -5/1000,
   12/1000, -8/1000, 1/100, -15/1000, 7/1000, -12/1000, 18/1000, -22/1000,
   1/100, 3/1000, -18/1000]

/-- The numpy/scipy facilities used by `simulate_asset_price_monte_carlo`,
modelled as explicit parameters.  `S` is the type of the global
`np.random` generator state; `seed` models `np.random.seed`, and `normal s
loc scale days sims` models `np.random.normal(loc, scale, size=(days,
simulations))` drawn in state `s`, read as a `(t, i)`-indexed matrix.
`expf`, `sqrtf` and `percentileFn` model `np.exp`, `np.sqrt` and
`np.percentile`. -/
structure NumpyEnv (S : Type) where
  seed : ℕ → S
  normal : S → ℚ → ℚ → ℕ → ℕ → (ℕ → ℕ → ℚ)
  expf : ℚ → ℚ
  sqrtf : ℚ → ℚ
  percentileFn : List ℚ → ℚ → ℚ

/-- Row `t` of the price-path matrix built by the loop
`price_paths[t] = price_paths[t-1] * np.exp(random_returns[t-1])`,
starting from `price_paths[0] = initial_price` (a row of `simulations`
copies of the initial price). -/
def priceRow (expf : ℚ → ℚ) (random_returns : ℕ → ℕ → ℚ)
    (initial_price : ℚ) (simulations : ℕ) : ℕ → List ℚ
  | 0 => List.replicate simulations initial_price
  | t + 1 =>
      List.zipWith (fun p i => p * expf (random_returns t i))
        (priceRow expf random_returns initial_price simulations t)
        (List.range simulations)

/-- The fields of the result dictionary of
`simulate_asset_price_monte_carlo` that the specification's claims are
about.  The remaining entries (`mean/median/min/max_final_price`) are
further statistics of `final_prices` printed in the report. -/
structure SimResult where
  initial_price : ℚ
  price_paths : List (List ℚ)
  final_prices : List ℚ
  mean_final_price : ℚ
  percentile_price : ℚ
  potential_loss : ℚ
  potential_loss_percentage : ℚ
  deriving DecidableEq

/-- Embedding of `simulate_asset_price_monte_carlo(initial_price, mu,
sigma, days, simulations, percentile)`.  `globalRng` is the state of the
process-wide `np.random` generator when the call starts; the function
begins with `np.random.seed(42)`, so that state never influences the
draws. -/
def simulate_asset_price_monte_carlo {S : Type} (env : NumpyEnv S) (_globalRng : S)
    (initial_price mu sigma : ℚ) (days simulations : ℕ) (percentile : ℚ) : SimResult :=
  let daily_returns := mu / 252
  let daily_volatility := sigma / env.sqrtf 252
  let seededRng := env.seed 42
  let random_returns := env.normal seededRng daily_returns daily_volatility days simulations
  let price_paths :=
    (List.range (days + 1)).map (priceRow env.expf random_returns initial_price simulations)
  let final_prices := priceRow env.expf random_returns initial_price simulations days
  let percentile_price := env.percentileFn final_prices percentile
  let potential_loss := initial_price - percentile_price
  let potential_loss_percentage := potential_loss / initial_price * 100
  { initial_price := initial_price
    price_paths := price_paths
    final_prices := final_prices
    mean_final_price := final_prices.sum / (final_prices.length : ℚ)
    percentile_price := percentile_price
    potential_loss := potential_loss
    potential_loss_percentage := potential_loss_percentage }

/-! ## Helper lemmas -/

/-- For a nonempty sample and a nonnegative confidence level the clamped
ceiling index stays inside the sample. -/
lemma varIndex_lt {n : ℕ} {c : ℚ} (hn : 0 < n) (hc : 0 ≤ c) :
    varIndex n c < n := by
  have h2 : ⌈(n : ℚ) * (1 - c)⌉ ≤ (n : ℤ) := by
    rw [Int.ceil_le]
    push_cast
    have hnc : 0 ≤ (n : ℚ) * c := mul_nonneg (by positivity) hc
    nlinarith
  unfold varIndex
  omega

/-- Closed form of `calculate_historical_var` on a nonempty sample. -/
lemma historicalVar_eq (returns : List ℚ) (c V : ℚ) (h1 : returns ≠ [])
    (hc : 0 ≤ c) :
    calculate_historical_var returns c V =
      some (V * -((returns.insertionSort (· ≤ ·)).getD (varIndex returns.length c) 0)) := by
  have hn : 0 < returns.length := List.length_pos.mpr h1
  have hidx : varIndex returns.length c < (returns.insertionSort (· ≤ ·)).length := by
    rw [List.length_insertionSort]; exact varIndex_lt hn hc
  unfold calculate_historical_var
  dsimp only
  rw [List.getElem?_eq_getElem hidx, List.getD_eq_getElem?_getD,
    List.getElem?_eq_getElem hidx]
  rfl

/-- Closed form of `calculate_conditional_var` on a nonempty sample: the
mean of the inclusive tail `sorted_returns[:index+1]`, which has exactly
`index + 1` elements. -/
lemma conditionalVar_eq (returns : List ℚ) (c V : ℚ) (h1 : returns ≠ [])
    (hc : 0 ≤ c) :
    calculate_conditional_var returns c V =
      some (V * -(((returns.insertionSort (· ≤ ·)).take (varIndex returns.length c + 1)).sum
        / ((varIndex returns.length c + 1 : ℕ) : ℚ))) := by
  have hn : 0 < returns.length := List.length_pos.mpr h1
  have hidx := varIndex_lt hn hc
  have hlen : ((returns.insertionSort (· ≤ ·)).take (varIndex returns.length c + 1)).length
      = varIndex returns.length c + 1 := by
    rw [List.length_take, List.length_insertionSort]; omega
  have hne : ((returns.insertionSort (· ≤ ·)).take (varIndex returns.length c + 1)).isEmpty
      = false := by
    rw [Bool.eq_false_iff]
    intro h
    rw [List.isEmpty_iff_length_eq_zero, hlen] at h
    omega
  unfold calculate_conditional_var
  dsimp only
  rw [hne]
  simp only [Bool.false_eq_true, if_false, hlen]

/-- Every element of the inclusive tail is at most the return at the VaR
index (the sorted array is ascending and the tail is its prefix up to that
index). -/
lemma tail_le_varReturn (returns : List ℚ) (c : ℚ) (h1 : returns ≠ [])
    (hc : 0 ≤ c) :
    ∀ x ∈ (returns.insertionSort (· ≤ ·)).take (varIndex returns.length c + 1),
      x ≤ (returns.insertionSort (· ≤ ·)).getD (varIndex returns.length c) 0 := by
  have hn : 0 < returns.length := List.length_pos.mpr h1
  have hidx : varIndex returns.length c < (returns.insertionSort (· ≤ ·)).length := by
    rw [List.length_insertionSort]; exact varIndex_lt hn hc
  have hsorted : (returns.insertionSort (· ≤ ·)).Sorted (· ≤ ·) :=
    List.sorted_insertionSort _ _
  intro x hx
  rw [List.mem_iff_getElem] at hx
  obtain ⟨i, hi, rfl⟩ := hx
  have hi2 : i < varIndex returns.length c + 1 := by
    have := hi; rw [List.length_take] at this; omega
  have hiL : i < (returns.insertionSort (· ≤ ·)).length := by
    have := hi; rw [List.length_take, List.length_insertionSort] at this
    have := varIndex_lt hn hc; omega
  rw [List.getElem_take, List.getD_eq_getElem?_getD, List.getElem?_eq_getElem hidx]
  have := hsorted.rel_get_of_le
    (a := ⟨i, hiL⟩) (b := ⟨varIndex returns.length c, hidx⟩) (by simpa using Nat.lt_succ_iff.mp hi2)
  simpa using this

/-- The return at the VaR index belongs to the inclusive tail. -/
lemma varReturn_mem_tail (returns : List ℚ) (c : ℚ) (h1 : returns ≠ [])
    (hc : 0 ≤ c) :
    (returns.insertionSort (· ≤ ·)).getD (varIndex returns.length c) 0 ∈
      (returns.insertionSort (· ≤ ·)).take (varIndex returns.length c + 1) := by
  have hn : 0 < returns.length := List.length_pos.mpr h1
  have hidx : varIndex returns.length c < (returns.insertionSort (· ≤ ·)).length := by
    rw [List.length_insertionSort]; exact varIndex_lt hn hc
  have hlen : ((returns.insertionSort (· ≤ ·)).take (varIndex returns.length c + 1)).length
      = varIndex returns.length c + 1 := by
    rw [List.length_take, List.length_insertionSort]
    have := varIndex_lt hn hc; omega
  rw [List.getD_eq_getElem?_getD, List.getElem?_eq_getElem hidx]
  rw [List.mem_iff_getElem]
  refine ⟨varIndex returns.length c, by omega, ?_⟩
  simp [List.getElem_take]

/-- A list bounded above by `M` has sum at most `length * M`. -/
lemma sum_le_length_mul (l : List ℚ) (M : ℚ) (hall : ∀ x ∈ l, x ≤ M) :
    l.sum ≤ (l.length : ℚ) * M := by
  have := List.sum_le_card_nsmul l M hall
  simpa [nsmul_eq_mul] using this

/-- A list bounded above by `M` that contains an element strictly below `M`
has sum strictly below `length * M`. -/
lemma sum_lt_length_mul :
    ∀ (l : List ℚ) (M : ℚ), (∀ x ∈ l, x ≤ M) → (∃ x ∈ l, x < M) →
      l.sum < (l.length : ℚ) * M := by
  intro l
  induction l with
  | nil => intro M _ hex; simp at hex
  | cons a t ih =>
    intro M hall hex
    have hts : t.sum ≤ (t.length : ℚ) * M :=
      sum_le_length_mul t M (fun y hy => hall y (List.mem_cons_of_mem _ hy))
    have ha : a ≤ M := hall a (List.mem_cons_self _ _)
    obtain ⟨x, hx, hxM⟩ := hex
    simp only [List.mem_cons] at hx
    rcases hx with rfl | hx
    · simp only [List.sum_cons, List.length_cons]
      push_cast
      nlinarith
    · have ht : t.sum < (t.length : ℚ) * M :=
        ih M (fun y hy => hall y (List.mem_cons_of_mem _ hy)) ⟨x, hx, hxM⟩
      simp only [List.sum_cons, List.length_cons]
      push_cast
      nlinarith

/-! ## Claims -/

/-- C1: for every non-empty return sample, confidence level in (0,1) and
investment value, `calculate_historical_var` sorts the sample ascending,
takes the clamped index `ceil(n * (1-c)) - 1` (which stays inside the
sample) and returns `investment_value * -sorted[index]`. -/
theorem C1_historical_var_formula (returns : List ℚ) (c V : ℚ)
    (h1 : returns ≠ []) (h2 : 0 < c) (h3 : c < 1) :
    varIndex returns.length c < returns.length ∧
    calculate_historical_var returns c V =
      some (V * -((returns.insertionSort (· ≤ ·)).getD (varIndex returns.length c) 0)) :=
  ⟨varIndex_lt (List.length_pos.mpr h1) h2.le, historicalVar_eq returns c V h1 h2.le⟩

/-- C1 witness: on the specification's 20-element sample with confidence
0.95 and investment 1,000,000 the index is 0 and the result is exactly
30,000. -/
theorem C1_historical_var_formula_witness :
    specSample ≠ [] ∧ (0 : ℚ) < 19/20 ∧ (19 : ℚ)/20 < 1 ∧
    varIndex specSample.length (19/20) = 0 ∧
    calculate_historical_var specSample (19/20) 1000000 = some 30000 :=
  ⟨by decide, by decide, by decide, by decide,
    (C1_historical_var_formula specSample (19/20) 1000000 (by decide) (by decide)
      (by decide)).2.trans (by decide)⟩

/-- C4: for every non-empty return sample, confidence in (0,1) and
investment value, `calculate_conditional_var` uses the same sort and the
same clamped index as `calculate_historical_var` and returns
`investment_value * -mean(sorted[0..index])` with the tail inclusive of
the VaR index; when the index is 0 it coincides with the historical VaR. -/
theorem C4_conditional_var_formula (returns : List ℚ) (c V : ℚ)
    (h1 : returns ≠ []) (h2 : 0 < c) (h3 : c < 1) :
    calculate_conditional_var returns c V =
      some (V * -(((returns.insertionSort (· ≤ ·)).take (varIndex returns.length c + 1)).sum
        / ((varIndex returns.length c + 1 : ℕ) : ℚ))) ∧
    (varIndex returns.length c = 0 →
      calculate_conditional_var returns c V = calculate_historical_var returns c V) := by
  refine ⟨conditionalVar_eq returns c V h1 h2.le, ?_⟩
  intro h0
  rw [conditionalVar_eq returns c V h1 h2.le, historicalVar_eq returns c V h1 h2.le, h0]
  have hn : 0 < returns.length := List.length_pos.mpr h1
  have hlen : 0 < (returns.insertionSort (· ≤ ·)).length := by
    rw [List.length_insertionSort]; exact hn
  obtain ⟨a, t, hat⟩ : ∃ a t, returns.insertionSort (· ≤ ·) = a :: t := by
    cases hsort : returns.insertionSort (· ≤ ·) with
    | nil => rw [hsort] at hlen; simp at hlen
    | cons a t => exact ⟨a, t, rfl⟩
  rw [hat]
  norm_num

/-- C4 witness: on the specification's sample at confidence 0.95 the index
is 0 and the conditional VaR equals the historical VaR (both 30,000). -/
theorem C4_conditional_var_formula_witness :
    specSample ≠ [] ∧ (0 : ℚ) < 19/20 ∧ (19 : ℚ)/20 < 1 ∧
    varIndex specSample.length (19/20) = 0 ∧
    calculate_conditional_var specSample (19/20) 1000000 =
      calculate_historical_var specSample (19/20) 1000000 :=
  ⟨by decide, by decide, by decide, by decide,
    (C4_conditional_var_formula specSample (19/20) 1000000 (by decide) (by decide)
      (by decide)).2 (by decide)⟩

/-- C5 counterexample: the claim quantifies over every investment value,
but for a negative investment value the inequality reverses: with sample
[-0.03, -0.01], confidence 0.4 (index 1, two distinct tail values) and
investment -1, the conditional VaR -0.02 is strictly below the historical
VaR -0.01. -/
theorem C5_counterexample :
    calculate_historical_var [-3/100, -1/100] (2/5) (-1) = some (-1/100) ∧
    calculate_conditional_var [-3/100, -1/100] (2/5) (-1) = some (-1/50) ∧
    ¬ ((-1 : ℚ)/100 ≤ -1/50) := by decide

/-- C5 (amended): for a nonnegative investment value the conditional VaR
amount is at least the historical VaR amount, and strictly greater when
the investment value is positive and the inclusive tail contains more than
one distinct value. -/
theorem C5_cvar_ge_var (returns : List ℚ) (c V : ℚ)
    (h1 : returns ≠ []) (h2 : 0 < c) (h3 : c < 1) (hV : 0 ≤ V) :
    ∀ hv cv, calculate_historical_var returns c V = some hv →
      calculate_conditional_var returns c V = some cv →
      hv ≤ cv ∧
      (0 < V →
        (∃ a ∈ (returns.insertionSort (· ≤ ·)).take (varIndex returns.length c + 1),
          ∃ b ∈ (returns.insertionSort (· ≤ ·)).take (varIndex returns.length c + 1),
            a ≠ b) →
        hv < cv) := by
  intro hv cv hhv hcv
  rw [historicalVar_eq returns c V h1 h2.le] at hhv
  rw [conditionalVar_eq returns c V h1 h2.le] at hcv
  have hn : 0 < returns.length := List.length_pos.mpr h1
  set M := (returns.insertionSort (· ≤ ·)).getD (varIndex returns.length c) 0 with hM
  set tl := (returns.insertionSort (· ≤ ·)).take (varIndex returns.length c + 1) with htl
  have hlen : tl.length = varIndex returns.length c + 1 := by
    rw [htl, List.length_take, List.length_insertionSort]
    have := varIndex_lt hn h2.le; omega
  have hall : ∀ x ∈ tl, x ≤ M := tail_le_varReturn returns c h1 h2.le
  have hkpos : (0 : ℚ) < ((varIndex returns.length c + 1 : ℕ) : ℚ) := by positivity
  have hsum : tl.sum ≤ ((varIndex returns.length c + 1 : ℕ) : ℚ) * M := by
    have := sum_le_length_mul tl M hall
    rwa [hlen] at this
  have hmean : tl.sum / ((varIndex returns.length c + 1 : ℕ) : ℚ) ≤ M :=
    (div_le_iff hkpos).mpr (by linarith [hsum, mul_comm M (((varIndex returns.length c + 1 : ℕ) : ℚ))])
  have hhv2 : hv = V * -M := by injection hhv.symm
  have hcv2 : cv = V * -(tl.sum / ((varIndex returns.length c + 1 : ℕ) : ℚ)) := by
    injection hcv.symm
  constructor
  · rw [hhv2, hcv2]
    apply mul_le_mul_of_nonneg_left _ hV
    linarith [hmean]
  · intro hVpos hdist
    obtain ⟨a, ha, b, hb, hab⟩ := hdist
    have hex : ∃ x ∈ tl, x < M := by
      by_cases haM : a = M
      · refine ⟨b, hb, ?_⟩
        have := hall b hb
        rcases lt_or_eq_of_le this with h | h
        · exact h
        · exact absurd (haM.trans h.symm) hab
      · exact ⟨a, ha, lt_of_le_of_ne (hall a ha) haM⟩
    have hsum2 : tl.sum < ((varIndex returns.length c + 1 : ℕ) : ℚ) * M := by
      have := sum_lt_length_mul tl M hall hex
      rwa [hlen] at this
    have hmean2 : tl.sum / ((varIndex returns.length c + 1 : ℕ) : ℚ) < M :=
      (div_lt_iff hkpos).mpr (by linarith [hsum2])
    rw [hhv2, hcv2]
    apply mul_lt_mul_of_pos_left _ hVpos
    linarith [hmean2]

/-- C5 witness: with sample [-0.03, -0.01], confidence 0.4 and investment
1, the historical VaR is 0.01, the conditional VaR is 0.02, and the
inequality is strict because the inclusive tail holds two distinct
values. -/
theorem C5_cvar_ge_var_witness :
    ([-3/100, -1/100] : List ℚ) ≠ [] ∧ (0 : ℚ) < 2/5 ∧ (2 : ℚ)/5 < 1 ∧ (0 : ℚ) ≤ 1 ∧
    ((1 : ℚ)/100 ≤ 1/50 ∧
      ((0 : ℚ) < 1 →
        (∃ a ∈ (([-3/100, -1/100] : List ℚ).insertionSort (· ≤ ·)).take
            (varIndex ([-3/100, -1/100] : List ℚ).length (2/5) + 1),
          ∃ b ∈ (([-3/100, -1/100] : List ℚ).insertionSort (· ≤ ·)).take
            (varIndex ([-3/100, -1/100] : List ℚ).length (2/5) + 1), a ≠ b) →
        (1 : ℚ)/100 < 1/50)) :=
  ⟨by decide, by decide, by decide, by decide,
    C5_cvar_ge_var [-3/100, -1/100] (2/5) 1 (by decide) (by decide) (by decide)
      (by decide) (1/100) (1/50) (by decide) (by decide)⟩

/-- C9 counterexample: on a sample whose returns are all positive the
returned amounts are negative: with sample [0.01, 0.02], confidence 0.95
and investment 1,000,000 both functions return -10,000. -/
theorem C9_counterexample :
    calculate_historical_var [1/100, 2/100] (19/20) 1000000 = some (-10000) ∧
    calculate_conditional_var [1/100, 2/100] (19/20) 1000000 = some (-10000) ∧
    ((-10000 : ℚ) < 0) := by decide

/-- C9 (amended): the amounts returned by `calculate_historical_var` and
`calculate_conditional_var` are nonnegative provided the investment value
is nonnegative and the sorted return at the VaR index is nonpositive (a
loss); when even the worst tail returns are gains the amounts are
negative. -/
theorem C9_amount_nonneg (returns : List ℚ) (c V : ℚ)
    (h1 : returns ≠ []) (h2 : 0 < c) (h3 : c < 1) (hV : 0 ≤ V)
    (hloss : (returns.insertionSort (· ≤ ·)).getD (varIndex returns.length c) 0 ≤ 0) :
    ∀ hv cv, calculate_historical_var returns c V = some hv →
      calculate_conditional_var returns c V = some cv →
      0 ≤ hv ∧ 0 ≤ cv := by
  intro hv cv hhv hcv
  rw [historicalVar_eq returns c V h1 h2.le] at hhv
  rw [conditionalVar_eq returns c V h1 h2.le] at hcv
  have hn : 0 < returns.length := List.length_pos.mpr h1
  set M := (returns.insertionSort (· ≤ ·)).getD (varIndex returns.length c) 0 with hM
  set tl := (returns.insertionSort (· ≤ ·)).take (varIndex returns.length c + 1) with htl
  have hlen : tl.length = varIndex returns.length c + 1 := by
    rw [htl, List.length_take, List.length_insertionSort]
    have := varIndex_lt hn h2.le; omega
  have hall : ∀ x ∈ tl, x ≤ M := tail_le_varReturn returns c h1 h2.le
  have hkpos : (0 : ℚ) < ((varIndex returns.length c + 1 : ℕ) : ℚ) := by positivity
  have hsum : tl.sum ≤ ((varIndex returns.length c + 1 : ℕ) : ℚ) * M := by
    have := sum_le_length_mul tl M hall
    rwa [hlen] at this
  have hsum0 : tl.sum ≤ 0 := le_trans hsum (by nlinarith)
  have hhv2 : hv = V * -M := by injection hhv.symm
  have hcv2 : cv = V * -(tl.sum / ((varIndex returns.length c + 1 : ℕ) : ℚ)) := by
    injection hcv.symm
  constructor
  · rw [hhv2]; exact mul_nonneg hV (by linarith)
  · rw [hcv2]
    apply mul_nonneg hV
    have : tl.sum / ((varIndex returns.length c + 1 : ℕ) : ℚ) ≤ 0 :=
      div_nonpos_of_nonpos_of_nonneg hsum0 hkpos.le
    linarith

/-- C9 witness: with sample [-0.03, -0.01], confidence 0.95 and investment
1,000,000 the worst return is a loss, and both amounts (30,000) are
nonnegative. -/
theorem C9_amount_nonneg_witness :
    ([-3/100, -1/100] : List ℚ) ≠ [] ∧ (0 : ℚ) < 19/20 ∧ (19 : ℚ)/20 < 1 ∧
    (0 : ℚ) ≤ 1000000 ∧
    (([-3/100, -1/100] : List ℚ).insertionSort (· ≤ ·)).getD
      (varIndex ([-3/100, -1/100] : List ℚ).length (19/20)) 0 ≤ 0 ∧
    ((0 : ℚ) ≤ 30000 ∧ (0 : ℚ) ≤ 30000) :=
  ⟨by decide, by decide, by decide, by decide, by decide,
    C9_amount_nonneg [-3/100, -1/100] (19/20) 1000000 (by decide) (by decide)
      (by decide) (by decide) (by decide) 30000 30000 (by decide) (by decide)⟩

/-- C2 counterexample: a confidence level of 2, well outside (0,1), does
not make `calculate_historical_var` fail: the negative index is clamped to
0 and the worst observed return is priced, returning 20,000. -/
theorem C2_counterexample :
    ¬ ((0 : ℚ) < 2 ∧ (2 : ℚ) < 1) ∧
    calculate_historical_var [3/100, -1/50] 2 1000000 = some 20000 := by decide

/-- C2 (amended): the operations perform no parameter validation.  For any
nonempty sample and any nonnegative confidence level (in range or not) the
historical and conditional VaR both return a value; on an empty sample they
fail with an out-of-bounds/NaN outcome (`none`), not a parameter check; and
the single-asset simulator returns a full `(days+1)`-row result for any
parameters, including nonpositive initial prices. -/
theorem C2_no_validation :
    (∀ (returns : List ℚ) (c V : ℚ), returns ≠ [] → 0 ≤ c →
      (calculate_historical_var returns c V).isSome = true ∧
      (calculate_conditional_var returns c V).isSome = true) ∧
    (∀ c V : ℚ, calculate_historical_var [] c V = none ∧
      calculate_conditional_var [] c V = none) ∧
    (∀ (S : Type) (env : NumpyEnv S) (s : S) (p mu sigma : ℚ) (days sims : ℕ) (pct : ℚ),
      (simulate_asset_price_monte_carlo env s p mu sigma days sims pct).price_paths.length
        = days + 1) := by
  refine ⟨?_, ?_, ?_⟩
  · intro returns c V h1 hc
    rw [historicalVar_eq returns c V h1 hc, conditionalVar_eq returns c V h1 hc]
    exact ⟨rfl, rfl⟩
  · intro c V
    constructor
    · unfold calculate_historical_var
      simp
    · unfold calculate_conditional_var
      simp
  · intro S env s p mu sigma days sims pct
    unfold simulate_asset_price_monte_carlo
    simp

/-- C2 witness: with the nonempty sample [0.03] and the out-of-range
confidence level 2 both VaR functions still return a value. -/
theorem C2_no_validation_witness :
    ([3/100] : List ℚ) ≠ [] ∧ (0 : ℚ) ≤ 2 ∧
    ((calculate_historical_var [3/100] 2 1000000).isSome = true ∧
      (calculate_conditional_var [3/100] 2 1000000).isSome = true) :=
  ⟨by decide, by decide, C2_no_validation.1 [3/100] 2 1000000 (by decide) (by decide)⟩

/-- C3: `calculate_parametric_var` returns
`V * -(mean*horizon + z*std*sqrt(horizon))` with `z = ppf(1 - confidence)`;
at mean 0, std 0.02, confidence 0.95, investment 1,000,000 and horizon 1,
with the true value `z = ppf(0.05) ≈ -1.645`, the result is approximately
32,900 and is positive. -/
theorem C3_parametric_var_formula :
    (∀ (ppf sqrtf : ℚ → ℚ) (m sd c V h : ℚ),
      calculate_parametric_var ppf sqrtf m sd c V h
        = V * -(m * h + ppf (1 - c) * sd * sqrtf h)) ∧
    (∀ ppf sqrtf : ℚ → ℚ, sqrtf 1 = 1 →
      -331/200 ≤ ppf (1/20) → ppf (1/20) ≤ -327/200 →
      32700 ≤ calculate_parametric_var ppf sqrtf 0 (1/50) (19/20) 1000000 1 ∧
      calculate_parametric_var ppf sqrtf 0 (1/50) (19/20) 1000000 1 ≤ 33100 ∧
      0 < calculate_parametric_var ppf sqrtf 0 (1/50) (19/20) 1000000 1) := by
  constructor
  · intro ppf sqrtf m sd c V h
    rfl
  · intro ppf sqrtf hsq hlo hhi
    unfold calculate_parametric_var
    have he : (1 : ℚ) - 19/20 = 1/20 := by norm_num
    rw [he, hsq]
    refine ⟨by nlinarith, by nlinarith, by nlinarith⟩

/-- C3 witness: with `ppf` returning -1.65 (within 0.005 of the true
-1.6449) and `sqrt 1 = 1` the parametric VaR at the specification's inputs
is 33,000, within the stated band around 32,900, and positive. -/
theorem C3_parametric_var_formula_witness :
    (fun _ : ℚ => (1 : ℚ)) 1 = 1 ∧
    (-331/200 : ℚ) ≤ (fun _ : ℚ => (-33/20 : ℚ)) (1/20) ∧
    (fun _ : ℚ => (-33/20 : ℚ)) (1/20) ≤ -327/200 ∧
    (32700 ≤ calculate_parametric_var (fun _ => -33/20) (fun _ => 1) 0 (1/50) (19/20) 1000000 1 ∧
      calculate_parametric_var (fun _ => -33/20) (fun _ => 1) 0 (1/50) (19/20) 1000000 1 ≤ 33100 ∧
      0 < calculate_parametric_var (fun _ => -33/20) (fun _ => 1) 0 (1/50) (19/20) 1000000 1) :=
  ⟨by decide, by decide, by decide,
    C3_parametric_var_formula.2 (fun _ => -33/20) (fun _ => 1) (by decide) (by decide)
      (by decide)⟩

/-! ## Monte Carlo helper lemmas -/

/-- Every row of the price-path matrix has one entry per simulation path. -/
lemma priceRow_length (expf : ℚ → ℚ) (rr : ℕ → ℕ → ℚ) (init : ℚ) (sims t : ℕ) :
    (priceRow expf rr init sims t).length = sims := by
  induction t with
  | zero => simp [priceRow]
  | succ t ih => simp [priceRow, ih]

/-- Positivity propagates through the multiplicative recursion: if the
initial price is positive and the exponential function is positive
everywhere, every entry of every row is positive. -/
lemma priceRow_pos {expf : ℚ → ℚ} {rr : ℕ → ℕ → ℚ} {init : ℚ} {sims : ℕ}
    (hinit : 0 < init) (hexp : ∀ x, 0 < expf x) (t : ℕ) :
    ∀ x ∈ priceRow expf rr init sims t, 0 < x := by
  induction t with
  | zero =>
    intro x hx
    rw [priceRow] at hx
    exact (List.eq_of_mem_replicate hx) ▸ hinit
  | succ t ih =>
    intro x hx
    rw [priceRow] at hx
    rw [List.mem_iff_getElem] at hx
    obtain ⟨i, hi, rfl⟩ := hx
    rw [List.getElem_zipWith]
    exact mul_pos (ih _ (List.getElem_mem _)) (hexp _)

/-- Scaling the initial price by `k` scales every row of the price-path
matrix by `k`: the random returns do not depend on the initial price and
the recursion is multiplicative. -/
lemma priceRow_smul (k : ℚ) (expf : ℚ → ℚ) (rr : ℕ → ℕ → ℚ) (p : ℚ) (sims : ℕ) :
    ∀ t, priceRow expf rr (k * p) sims t
      = (priceRow expf rr p sims t).map (fun x => k * x) := by
  intro t
  induction t with
  | zero => simp [priceRow, List.map_replicate]
  | succ t ih =>
    rw [priceRow, priceRow, ih]
    simp only [List.zipWith_map_left, List.map_zipWith, mul_assoc]

/-- C6: the result of `simulate_asset_price_monte_carlo` does not depend on
the pre-existing state of the global random generator, because the call
starts by reseeding with the constant 42: two invocations with identical
arguments produce identical results, whatever states the generator was in. -/
theorem C6_deterministic (S : Type) (env : NumpyEnv S) (s1 s2 : S)
    (p mu sigma : ℚ) (days sims : ℕ) (pct : ℚ) :
    simulate_asset_price_monte_carlo env s1 p mu sigma days sims pct =
      simulate_asset_price_monte_carlo env s2 p mu sigma days sims pct := rfl

/-- C7: for a positive initial price and a positive exponential, the
price-path matrix has `days + 1` rows of `simulations` entries each, row 0
is the constant initial price, and every entry is strictly positive. -/
theorem C7_paths_positive (S : Type) (env : NumpyEnv S) (s : S)
    (p mu sigma : ℚ) (days sims : ℕ) (pct : ℚ)
    (hp : 0 < p) (hexp : ∀ x, 0 < env.expf x) :
    (simulate_asset_price_monte_carlo env s p mu sigma days sims pct).price_paths.length
        = days + 1 ∧
    (simulate_asset_price_monte_carlo env s p mu sigma days sims pct).price_paths.head?
        = some (List.replicate sims p) ∧
    (∀ row ∈ (simulate_asset_price_monte_carlo env s p mu sigma days sims pct).price_paths,
      row.length = sims) ∧
    (∀ row ∈ (simulate_asset_price_monte_carlo env s p mu sigma days sims pct).price_paths,
      ∀ x ∈ row, 0 < x) := by
  unfold simulate_asset_price_monte_carlo
  dsimp only
  refine ⟨by simp, ?_, ?_, ?_⟩
  · rw [List.range_succ_eq_map]
    simp [priceRow]
  · intro row hrow
    rw [List.mem_map] at hrow
    obtain ⟨t, _, rfl⟩ := hrow
    exact priceRow_length _ _ _ _ _
  · intro row hrow
    rw [List.mem_map] at hrow
    obtain ⟨t, _, rfl⟩ := hrow
    exact priceRow_pos hp hexp t

/-- A concrete numpy model used to witness the simulator claims: a
stateless generator whose normal draws all equal the requested mean, an
exponential that is constantly 1, and a percentile that reads the first
terminal price. -/
def unitEnv : NumpyEnv Unit where
  seed := fun _ => ()
  normal := fun _ loc _ _ _ => fun _ _ => loc
  expf := fun _ => 1
  sqrtf := fun _ => 1
  percentileFn := fun l _ => l.headD 0

/-- C7 witness: a concrete 2-day, 3-path simulation from price 100 with the
constantly-1 exponential satisfies all four conclusions. -/
theorem C7_paths_positive_witness :
    (0 : ℚ) < 100 ∧ (∀ x, 0 < unitEnv.expf x) ∧
    ((simulate_asset_price_monte_carlo unitEnv () 100 0 0 2 3 5).price_paths.length = 2 + 1 ∧
      (simulate_asset_price_monte_carlo unitEnv () 100 0 0 2 3 5).price_paths.head?
        = some (List.replicate 3 100) ∧
      (∀ row ∈ (simulate_asset_price_monte_carlo unitEnv () 100 0 0 2 3 5).price_paths,
        row.length = 3) ∧
      (∀ row ∈ (simulate_asset_price_monte_carlo unitEnv () 100 0 0 2 3 5).price_paths,
        ∀ x ∈ row, 0 < x)) :=
  ⟨by decide, fun _ => (by decide : (0 : ℚ) < 1),
    C7_paths_positive Unit unitEnv () 100 0 0 2 3 5 (by decide)
      (fun _ => (by decide : (0 : ℚ) < 1))⟩

/-- C8: the potential loss is the initial price minus the percentile price
of the terminal distribution, the percentage is `loss / initial * 100`,
and when the percentile price exceeds the initial price both are negative,
returned as-is. -/
theorem C8_potential_loss (S : Type) (env : NumpyEnv S) (s : S)
    (p mu sigma : ℚ) (days sims : ℕ) (pct : ℚ) (hp : 0 < p) :
    (simulate_asset_price_monte_carlo env s p mu sigma days sims pct).potential_loss
      = p - (simulate_asset_price_monte_carlo env s p mu sigma days sims pct).percentile_price ∧
    (simulate_asset_price_monte_carlo env s p mu sigma days sims pct).potential_loss_percentage
      = (simulate_asset_price_monte_carlo env s p mu sigma days sims pct).potential_loss
          / p * 100 ∧
    (p < (simulate_asset_price_monte_carlo env s p mu sigma days sims pct).percentile_price →
      (simulate_asset_price_monte_carlo env s p mu sigma days sims pct).potential_loss < 0 ∧
      (simulate_asset_price_monte_carlo env s p mu sigma days sims pct).potential_loss_percentage
        < 0) := by
  unfold simulate_asset_price_monte_carlo
  dsimp only
  refine ⟨rfl, rfl, ?_⟩
  intro hgt
  have hloss : p - env.percentileFn
      (priceRow env.expf
        (env.normal (env.seed 42) (mu / 252) (sigma / env.sqrtf 252) days sims) p sims days)
      pct < 0 := by linarith
  refine ⟨hloss, ?_⟩
  have hdiv := div_neg_of_neg_of_pos hloss hp
  nlinarith

/-- A numpy model whose percentile always exceeds the initial price used in
the C8 witness, so the potential loss is reported negative. -/
def gainEnv : NumpyEnv Unit where
  seed := fun _ => ()
  normal := fun _ loc _ _ _ => fun _ _ => loc
  expf := fun _ => 1
  sqrtf := fun _ => 1
  percentileFn := fun _ _ => 200

/-- C8 witness: with a percentile price of 200 against an initial price of
100 the potential loss is -100 and the percentage is -100, reported
negative without clamping. -/
theorem C8_potential_loss_witness :
    (0 : ℚ) < 100 ∧
    ((simulate_asset_price_monte_carlo gainEnv () 100 0 0 1 1 5).potential_loss
        = 100 - (simulate_asset_price_monte_carlo gainEnv () 100 0 0 1 1 5).percentile_price ∧
      (simulate_asset_price_monte_carlo gainEnv () 100 0 0 1 1 5).potential_loss_percentage
        = (simulate_asset_price_monte_carlo gainEnv () 100 0 0 1 1 5).potential_loss
            / 100 * 100 ∧
      ((100 : ℚ) < (simulate_asset_price_monte_carlo gainEnv () 100 0 0 1 1 5).percentile_price →
        (simulate_asset_price_monte_carlo gainEnv () 100 0 0 1 1 5).potential_loss < 0 ∧
        (simulate_asset_price_monte_carlo gainEnv () 100 0 0 1 1 5).potential_loss_percentage
          < 0)) ∧
    (simulate_asset_price_monte_carlo gainEnv () 100 0 0 1 1 5).potential_loss = -100 ∧
    (simulate_asset_price_monte_carlo gainEnv () 100 0 0 1 1 5).potential_loss_percentage
      = -100 :=
  ⟨by decide, C8_potential_loss Unit gainEnv () 100 0 0 1 1 5 (by decide), by decide, by decide⟩

/-- C10: scaling the initial price by `k > 0` scales the whole price-path
matrix by `k` and leaves the potential-loss percentage unchanged, because
the random draws are produced after reseeding and do not depend on the
initial price.  The percentile of the library is positively homogeneous on
nonempty samples. -/
theorem C10_initial_price_scaling (S : Type) (env : NumpyEnv S) (s : S)
    (k p mu sigma : ℚ) (days sims : ℕ) (pct : ℚ)
    (hk : 0 < k) (hp : 0 < p) (hsims : 0 < sims)
    (hhom : ∀ (l : List ℚ) (q : ℚ), l ≠ [] →
      env.percentileFn (l.map (fun x => k * x)) q = k * env.percentileFn l q) :
    (simulate_asset_price_monte_carlo env s (k * p) mu sigma days sims pct).price_paths
      = (simulate_asset_price_monte_carlo env s p mu sigma days sims pct).price_paths.map
          (List.map (fun x => k * x)) ∧
    (simulate_asset_price_monte_carlo env s (k * p) mu sigma days sims pct).potential_loss_percentage
      = (simulate_asset_price_monte_carlo env s p mu sigma days sims pct).potential_loss_percentage := by
  unfold simulate_asset_price_monte_carlo
  dsimp only
  set rr := env.normal (env.seed 42) (mu / 252) (sigma / env.sqrtf 252) days sims with hrr
  have hfinal : priceRow env.expf rr (k * p) sims days
      = (priceRow env.expf rr p sims days).map (fun x => k * x) :=
    priceRow_smul k env.expf rr p sims days
  have hne : priceRow env.expf rr p sims days ≠ [] := by
    have := priceRow_length env.expf rr p sims days
    intro h
    rw [h] at this
    simp at this
    omega
  constructor
  · rw [List.map_map]
    apply List.map_congr_left
    intro t _
    exact priceRow_smul k env.expf rr p sims t
  · rw [hfinal, hhom _ pct hne]
    rw [← mul_sub, mul_div_mul_left _ _ hk.ne.symm]

/-- C10 witness: doubling the initial price from 100 to 200 in a concrete
1-day, 1-path simulation doubles the path matrix and leaves the
potential-loss percentage unchanged. -/
theorem C10_initial_price_scaling_witness :
    (0 : ℚ) < 2 ∧ (0 : ℚ) < 100 ∧ 0 < 1 ∧
    ((simulate_asset_price_monte_carlo unitEnv () (2 * 100) 0 0 1 1 5).price_paths
        = (simulate_asset_price_monte_carlo unitEnv () 100 0 0 1 1 5).price_paths.map
            (List.map (fun x => 2 * x)) ∧
      (simulate_asset_price_monte_carlo unitEnv () (2 * 100) 0 0 1 1 5).potential_loss_percentage
        = (simulate_asset_price_monte_carlo unitEnv () 100 0 0 1 1 5).potential_loss_percentage) :=
  ⟨by decide, by decide, by decide,
    C10_initial_price_scaling Unit unitEnv () 2 100 0 0 1 1 5 (by decide) (by decide)
      (by decide)
      (fun l q hl => by
        cases l with
        | nil => exact absurd rfl hl
        | cons a t => rfl)⟩

end RMTools
